import Mathlib

/-!
Verification of the liquify displacement-map warp engine.

The source is a TypeScript raster editor.  We embed the numeric core in
rationals (JS doubles and Float32 entries become `ℚ`), flat pixel/map
buffers become total functions `ℕ → ℚ` (resp. `ℕ → ℕ` for RGBA bytes),
and the transcendental library calls `Math.sqrt`, `Math.sin`, `Math.cos`
are abstracted as function parameters, with only the algebraic facts the
source relies on (e.g. `sqrt 0 = 0`) taken as hypotheses.
-/

namespace Liquify

/-- An RGBA8 raster: flat byte buffer indexed `(y*width + x)*4 + c`. -/
structure Raster where
  width : ℕ
  height : ℕ
  data : ℕ → ℕ

/-- Tool kinds, from `types.ts`. -/
inductive ToolType where
  | WARP
  | BLOAT
  | PUCKER
  | TWIRL_CW
  | LASSO
  | TRANSFORM
deriving DecidableEq

/-- `Math.max(0, Math.min(hi, v))` — the edge clamp used by both samplers. -/
def clampZ (hi v : ℤ) : ℤ := max 0 (min hi v)

/-- Storing a number into a `Uint8ClampedArray` slot: clamp to `[0,255]`,
round half to even (ECMAScript ToUint8Clamp). -/
def u8clamp (q : ℚ) : ℕ :=
  if q ≤ 0 then 0
  else if 255 ≤ q then 255
  else
    let f : ℤ := ⌊q⌋
    let r : ℚ := q - f
    (if r < 1/2 then f
     else if 1/2 < r then f + 1
     else if f % 2 = 0 then f else f + 1).toNat

/-- The identity `mapX` written by `initEngine`: `mapX[y*w+x] = x`. -/
def initMapX (w : ℕ) : ℕ → ℚ := fun i => ((i % w : ℕ) : ℚ)

/-- The identity `mapY` written by `initEngine`: `mapY[y*w+x] = y`. -/
def initMapY (w : ℕ) : ℕ → ℚ := fun i => ((i / w : ℕ) : ℚ)

/-- The bilinear `sample` closure inside `applyDistortion`: resamples a
scalar float grid (a displacement-map array) at fractional coordinates,
with each of the four corner indices clamped into `[0,w-1] × [0,h-1]`. -/
def sampleGrid (arr : ℕ → ℚ) (w h : ℕ) (u v : ℚ) : ℚ :=
  let x0 : ℤ := ⌊u⌋
  let y0 : ℤ := ⌊v⌋
  let sx0 := (clampZ ((w : ℤ) - 1) x0).toNat
  let sx1 := (clampZ ((w : ℤ) - 1) (x0 + 1)).toNat
  let sy0 := (clampZ ((h : ℤ) - 1) y0).toNat
  let sy1 := (clampZ ((h : ℤ) - 1) (y0 + 1)).toNat
  let mu := u - (x0 : ℚ)
  let mv := v - (y0 : ℚ)
  arr (sy0 * w + sx0) * (1 - mu) * (1 - mv)
  + arr (sy0 * w + sx1) * mu * (1 - mv)
  + arr (sy1 * w + sx0) * (1 - mu) * mv
  + arr (sy1 * w + sx1) * mu * mv

/-- `renderRegionFromMapsRef`: for each region pixel, read the source
coordinate from the maps and bilinearly sample the original raster,
writing RGBA bytes (through `Uint8ClampedArray` conversion) at
`(y*regionW + x)*4 + c`.  Modelled as the output buffer as a function of
the flat output byte index. -/
def renderRegionFromMapsRef (startX startY regionW totalW : ℕ)
    (mapX mapY : ℕ → ℚ) (original : Raster) : ℕ → ℕ :=
  fun outIdx =>
    let c := outIdx % 4
    let t := outIdx / 4
    let x := t % regionW
    let y := t / regionW
    let pIndex := (startY + y) * totalW + (startX + x)
    let srcX := mapX pIndex
    let srcY := mapY pIndex
    let x0 : ℤ := ⌊srcX⌋
    let y0 : ℤ := ⌊srcY⌋
    let sx0 := (clampZ ((original.width : ℤ) - 1) x0).toNat
    let sx1 := (clampZ ((original.width : ℤ) - 1) (x0 + 1)).toNat
    let sy0 := (clampZ ((original.height : ℤ) - 1) y0).toNat
    let sy1 := (clampZ ((original.height : ℤ) - 1) (y0 + 1)).toNat
    let u := srcX - (x0 : ℚ)
    let v := srcY - (y0 : ℚ)
    let i00 := (sy0 * original.width + sx0) * 4
    let i10 := (sy0 * original.width + sx1) * 4
    let i01 := (sy1 * original.width + sx0) * 4
    let i11 := (sy1 * original.width + sx1) * 4
    u8clamp ((original.data (i00 + c) : ℚ) * (1 - u) * (1 - v)
      + (original.data (i10 + c) : ℚ) * u * (1 - v)
      + (original.data (i01 + c) : ℚ) * (1 - u) * v
      + (original.data (i11 + c) : ℚ) * u * v)

/-- `bakeCurrentWarp`: renders the whole raster through the maps into a
fresh raster of the same dimensions. -/
def bakeCurrentWarp (mapX mapY : ℕ → ℚ) (original : Raster) : Raster :=
  ⟨original.width, original.height,
   renderRegionFromMapsRef 0 0 original.width original.width mapX mapY original⟩

/-- The two displacement-map arrays (`mapXRef` / `mapYRef`). -/
structure EngineMaps where
  mapX : ℕ → ℚ
  mapY : ℕ → ℚ

/-- The smoothstep polynomial `factor * factor * (3 - 2 * factor)` used
for the brush falloff. -/
def smoothstepQ (t : ℚ) : ℚ := t * t * (3 - 2 * t)

/-- `localRadius = (size / 2) / zoomLevel / scale`. -/
def localRadiusOf (size zoomLevel scale : ℚ) : ℚ := size / 2 / zoomLevel / scale

/-- `minX = Math.max(0, Math.floor(mouseX - localRadius))`. -/
def strokeMinX (mouseX localRadius : ℚ) : ℤ := max 0 ⌊mouseX - localRadius⌋

/-- `minY = Math.max(0, Math.floor(mouseY - localRadius))`. -/
def strokeMinY (mouseY localRadius : ℚ) : ℤ := max 0 ⌊mouseY - localRadius⌋

/-- `maxX = Math.min(w, Math.ceil(mouseX + localRadius))`. -/
def strokeMaxX (w : ℕ) (mouseX localRadius : ℚ) : ℤ :=
  min (w : ℤ) ⌈mouseX + localRadius⌉

/-- `maxY = Math.min(h, Math.ceil(mouseY + localRadius))`. -/
def strokeMaxY (h : ℕ) (mouseY localRadius : ℚ) : ℤ :=
  min (h : ℤ) ⌈mouseY + localRadius⌉

/-- The tool-specific source lookup point `(sourceLookupX, sourceLookupY)`
computed from the destination pixel, its offset from the brush center,
the stroke delta and the falloff power.  `sinQ` / `cosQ` abstract
`Math.sin` / `Math.cos` for the twirl rotation.  Tools outside the warp
family leave the lookup at the pixel's own coordinates. -/
def toolLookup (tool : ToolType) (sinQ cosQ : ℚ → ℚ)
    (globalX globalY offsetX offsetY mouseX mouseY dx dy power : ℚ) : ℚ × ℚ :=
  match tool with
  | .WARP => (globalX - dx * power, globalY - dy * power)
  | .BLOAT =>
      (globalX - offsetX * power * (1/10), globalY - offsetY * power * (1/10))
  | .PUCKER =>
      (globalX + offsetX * power * (1/10), globalY + offsetY * power * (1/10))
  | .TWIRL_CW =>
      let angle := (1/10) * power
      let s := sinQ angle
      let c := cosQ angle
      (mouseX + (offsetX * c - offsetY * s), mouseY + (offsetX * s + offsetY * c))
  | _ => (globalX, globalY)

/-- The per-pixel body of the `applyDistortion` loop: the pair written
into the scratch buffers (`tempMapX`, `tempMapY`) for the cell at global
coordinates `(gx, gy)`.  Inside the brush it resamples the pre-stroke
maps at the tool lookup point; outside it copies the existing entry. -/
def strokeCell (tool : ToolType) (sqrtQ sinQ cosQ : ℚ → ℚ) (w h : ℕ)
    (maps : EngineMaps) (mouseX mouseY prevX prevY strength localRadius : ℚ)
    (gx gy : ℕ) : ℚ × ℚ :=
  let offsetX := (gx : ℚ) - mouseX
  let offsetY := (gy : ℚ) - mouseY
  let distSq := offsetX * offsetX + offsetY * offsetY
  if distSq < localRadius * localRadius then
    let dist := sqrtQ distSq
    let factor := (localRadius - dist) / localRadius
    let power := smoothstepQ factor * strength
    let lk := toolLookup tool sinQ cosQ (gx : ℚ) (gy : ℚ) offsetX offsetY
      mouseX mouseY (mouseX - prevX) (mouseY - prevY) power
    (sampleGrid maps.mapX w h lk.1 lk.2, sampleGrid maps.mapY w h lk.1 lk.2)
  else
    (maps.mapX (gy * w + gx), maps.mapY (gy * w + gx))

/-- `applyDistortion`: one incremental brush update.  It computes the
bounding box of the brush, fills a scratch buffer (`strokeCell`) that
only ever reads the pre-stroke maps, and then commits the scratch values
back into the maps over the bounding box; cells outside the box keep
their old values.  The final maps are expressed as functions of the flat
index, recovering the cell coordinates as `(idx % w, idx / w)` — for
every cell the source writes, this decoding is exact. -/
def applyDistortion (tool : ToolType) (sqrtQ sinQ cosQ : ℚ → ℚ) (w h : ℕ)
    (maps : EngineMaps) (mouseX mouseY prevX prevY size strength zoomLevel scale : ℚ) :
    EngineMaps :=
  let localRadius := localRadiusOf size zoomLevel scale
  let minX := strokeMinX mouseX localRadius
  let minY := strokeMinY mouseY localRadius
  let maxX := strokeMaxX w mouseX localRadius
  let maxY := strokeMaxY h mouseY localRadius
  if maxX - minX ≤ 0 ∨ maxY - minY ≤ 0 then maps
  else
    { mapX := fun idx =>
        if minX ≤ ((idx % w : ℕ) : ℤ) ∧ ((idx % w : ℕ) : ℤ) < maxX
            ∧ minY ≤ ((idx / w : ℕ) : ℤ) ∧ ((idx / w : ℕ) : ℤ) < maxY then
          (strokeCell tool sqrtQ sinQ cosQ w h maps mouseX mouseY prevX prevY
            strength localRadius (idx % w) (idx / w)).1
        else maps.mapX idx,
      mapY := fun idx =>
        if minX ≤ ((idx % w : ℕ) : ℤ) ∧ ((idx % w : ℕ) : ℤ) < maxX
            ∧ minY ≤ ((idx / w : ℕ) : ℤ) ∧ ((idx / w : ℕ) : ℤ) < maxY then
          (strokeCell tool sqrtQ sinQ cosQ w h maps mouseX mouseY prevX prevY
            strength localRadius (idx % w) (idx / w)).2
        else maps.mapY idx }

lemma u8clamp_natCast (n : ℕ) (hn : n ≤ 255) : u8clamp (n : ℚ) = n := by
  unfold u8clamp
  rcases Nat.eq_zero_or_pos n with h0 | h0
  · subst h0; norm_num
  · have h1 : ¬ ((n : ℚ) ≤ 0) := by
      push_neg; exact_mod_cast h0
    rw [if_neg h1]
    rcases eq_or_lt_of_le hn with he | hlt
    · subst he; norm_num
    · have h2 : ¬ ((255 : ℚ) ≤ (n : ℚ)) := by
        push_neg; exact_mod_cast hlt
      rw [if_neg h2]
      have hf : (⌊(n : ℚ)⌋ : ℤ) = (n : ℤ) := by
        simp
      simp only [hf]
      have hr : (n : ℚ) - ((n : ℤ) : ℚ) = 0 := by push_cast; ring
      rw [hr]
      norm_num

lemma sampleGrid_int (arr : ℕ → ℚ) (w h gx gy : ℕ)
    (hx : gx < w) (hy : gy < h) :
    sampleGrid arr w h (gx : ℚ) (gy : ℚ) = arr (gy * w + gx) := by
  unfold sampleGrid
  have hfx : (⌊(gx : ℚ)⌋ : ℤ) = (gx : ℤ) := by simp
  have hfy : (⌊(gy : ℚ)⌋ : ℤ) = (gy : ℤ) := by simp
  simp only [hfx, hfy]
  have hcx : (clampZ ((w : ℤ) - 1) (gx : ℤ)).toNat = gx := by
    unfold clampZ; omega
  have hcy : (clampZ ((h : ℤ) - 1) (gy : ℤ)).toNat = gy := by
    unfold clampZ; omega
  rw [hcx, hcy]
  have hmu : (gx : ℚ) - ((gx : ℤ) : ℚ) = 0 := by push_cast; ring
  have hmv : (gy : ℚ) - ((gy : ℤ) : ℚ) = 0 := by push_cast; ring
  rw [hmu, hmv]
  ring

/-- Rendering any in-range pixel through freshly initialized identity
maps reads back exactly the original byte. -/
lemma renderRegion_identity (original : Raster)
    (hdata : ∀ i, original.data i ≤ 255) (x y c : ℕ)
    (hx : x < original.width) (hy : y < original.height) (hc : c < 4) :
    renderRegionFromMapsRef 0 0 original.width original.width
      (initMapX original.width) (initMapY original.width) original
      ((y * original.width + x) * 4 + c)
      = original.data ((y * original.width + x) * 4 + c) := by
  have hw : 0 < original.width := by omega
  unfold renderRegionFromMapsRef initMapX initMapY
  simp only [Nat.zero_add]
  have h1 : ((y * original.width + x) * 4 + c) % 4 = c := by omega
  have h2 : ((y * original.width + x) * 4 + c) / 4 = y * original.width + x := by
    omega
  rw [h1, h2]
  have h3 : (y * original.width + x) % original.width = x := by
    rw [mul_comm y, Nat.mul_add_mod, Nat.mod_eq_of_lt hx]
  have h4 : (y * original.width + x) / original.width = y := by
    rw [mul_comm y, Nat.mul_add_div hw, Nat.div_eq_of_lt hx, add_zero]
  rw [h3, h4]
  rw [h3, h4]
  have hfx : (⌊((x : ℕ) : ℚ)⌋ : ℤ) = (x : ℤ) := by simp
  have hfy : (⌊((y : ℕ) : ℚ)⌋ : ℤ) = (y : ℤ) := by simp
  rw [hfx, hfy]
  have hcx : (clampZ ((original.width : ℤ) - 1) (x : ℤ)).toNat = x := by
    unfold clampZ; omega
  have hcy : (clampZ ((original.height : ℤ) - 1) (y : ℤ)).toNat = y := by
    unfold clampZ; omega
  rw [hcx, hcy]
  have hmu : ((x : ℕ) : ℚ) - ((x : ℤ) : ℚ) = 0 := by push_cast; ring
  have hmv : ((y : ℕ) : ℚ) - ((y : ℤ) : ℚ) = 0 := by push_cast; ring
  rw [hmu, hmv]
  have hsum :
      (original.data ((y * original.width + x) * 4 + c) : ℚ) * (1 - 0) * (1 - 0)
      + (original.data (((y * original.width
          + (clampZ ((original.width : ℤ) - 1) ((x : ℤ) + 1)).toNat) * 4) + c) : ℚ)
        * 0 * (1 - 0)
      + (original.data ((((clampZ ((original.height : ℤ) - 1) ((y : ℤ) + 1)).toNat
          * original.width + x) * 4) + c) : ℚ) * (1 - 0) * 0
      + (original.data ((((clampZ ((original.height : ℤ) - 1) ((y : ℤ) + 1)).toNat
          * original.width
          + (clampZ ((original.width : ℤ) - 1) ((x : ℤ) + 1)).toNat) * 4) + c) : ℚ)
        * 0 * 0
      = (original.data ((y * original.width + x) * 4 + c) : ℚ) := by ring
  rw [hsum]
  exact u8clamp_natCast _ (hdata _)

/-- C2: rendering a raster through a freshly initialized identity
displacement map (`mapX[x,y] = x`, `mapY[x,y] = y`) reproduces the
original raster exactly, every channel of every pixel equal, and hence
baking an identity map (`bakeCurrentWarp`) yields pixel data equal to
the original raster. -/
theorem identity_map_render_reproduces_raster (original : Raster)
    (hdata : ∀ i, original.data i ≤ 255) (x y c : ℕ)
    (hx : x < original.width) (hy : y < original.height) (hc : c < 4) :
    renderRegionFromMapsRef 0 0 original.width original.width
      (initMapX original.width) (initMapY original.width) original
      ((y * original.width + x) * 4 + c)
      = original.data ((y * original.width + x) * 4 + c)
    ∧ (bakeCurrentWarp (initMapX original.width) (initMapY original.width)
        original).data ((y * original.width + x) * 4 + c)
      = original.data ((y * original.width + x) * 4 + c) := by
  refine ⟨renderRegion_identity original hdata x y c hx hy hc, ?_⟩
  show renderRegionFromMapsRef 0 0 original.width original.width
      (initMapX original.width) (initMapY original.width) original
      ((y * original.width + x) * 4 + c)
      = original.data ((y * original.width + x) * 4 + c)
  exact renderRegion_identity original hdata x y c hx hy hc

/-- Witness for C2 at a concrete 2×2 raster. -/
theorem identity_map_render_reproduces_raster_witness :
    (∀ i, (Raster.mk 2 2 (fun i => 7 + i % 9)).data i ≤ 255)
    ∧ (renderRegionFromMapsRef 0 0 2 2 (initMapX 2) (initMapY 2)
        (Raster.mk 2 2 (fun i => 7 + i % 9)) ((1 * 2 + 1) * 4 + 2)
        = (Raster.mk 2 2 (fun i => 7 + i % 9)).data ((1 * 2 + 1) * 4 + 2)
      ∧ (bakeCurrentWarp (initMapX 2) (initMapY 2)
          (Raster.mk 2 2 (fun i => 7 + i % 9))).data ((1 * 2 + 1) * 4 + 2)
        = (Raster.mk 2 2 (fun i => 7 + i % 9)).data ((1 * 2 + 1) * 4 + 2)) :=
  ⟨fun i => by simp only [Raster.mk.injEq]; omega,
   identity_map_render_reproduces_raster (Raster.mk 2 2 (fun i => 7 + i % 9))
     (fun i => by simp only []; omega) 1 1 2
     (by norm_num) (by norm_num) (by norm_num)⟩

/-- Generic in-brush evaluation of `applyDistortion`: inside the
bounding box and strictly inside the brush radius, the committed value
is the pre-stroke map resampled at the tool lookup point. -/
lemma applyDistortion_in_box (tool : ToolType) (sqrtQ sinQ cosQ : ℚ → ℚ)
    (w h : ℕ) (maps : EngineMaps)
    (mouseX mouseY prevX prevY size strength zoomLevel scale : ℚ)
    (gx gy : ℕ) (R power lx ly : ℚ)
    (hR : R = localRadiusOf size zoomLevel scale)
    (hbx1 : strokeMinX mouseX R ≤ (gx : ℤ))
    (hbx2 : (gx : ℤ) < strokeMaxX w mouseX R)
    (hby1 : strokeMinY mouseY R ≤ (gy : ℤ))
    (hby2 : (gy : ℤ) < strokeMaxY h mouseY R)
    (hin : ((gx : ℚ) - mouseX) * ((gx : ℚ) - mouseX)
        + ((gy : ℚ) - mouseY) * ((gy : ℚ) - mouseY) < R * R)
    (hpow : power = smoothstepQ ((R - sqrtQ (((gx : ℚ) - mouseX) * ((gx : ℚ) - mouseX)
        + ((gy : ℚ) - mouseY) * ((gy : ℚ) - mouseY))) / R) * strength)
    (hlk : (lx, ly) = toolLookup tool sinQ cosQ (gx : ℚ) (gy : ℚ)
        ((gx : ℚ) - mouseX) ((gy : ℚ) - mouseY) mouseX mouseY
        (mouseX - prevX) (mouseY - prevY) power) :
    (applyDistortion tool sqrtQ sinQ cosQ w h maps mouseX mouseY prevX prevY
        size strength zoomLevel scale).mapX (gy * w + gx)
      = sampleGrid maps.mapX w h lx ly
    ∧ (applyDistortion tool sqrtQ sinQ cosQ w h maps mouseX mouseY prevX prevY
        size strength zoomLevel scale).mapY (gy * w + gx)
      = sampleGrid maps.mapY w h lx ly := by
  subst hR
  have hw : gx < w := by
    have := hbx2
    unfold strokeMaxX at this
    omega
  have hh : gy < h := by
    have := hby2
    unfold strokeMaxY at this
    omega
  have hmod : (gy * w + gx) % w = gx := by
    rw [mul_comm gy, Nat.mul_add_mod, Nat.mod_eq_of_lt hw]
  have hdiv : (gy * w + gx) / w = gy := by
    rw [mul_comm gy, Nat.mul_add_div (by omega), Nat.div_eq_of_lt hw, add_zero]
  have hdeg : ¬ (strokeMaxX w mouseX (localRadiusOf size zoomLevel scale)
        - strokeMinX mouseX (localRadiusOf size zoomLevel scale) ≤ 0
      ∨ strokeMaxY h mouseY (localRadiusOf size zoomLevel scale)
        - strokeMinY mouseY (localRadiusOf size zoomLevel scale) ≤ 0) := by
    push_neg
    omega
  unfold applyDistortion
  simp only []
  rw [if_neg hdeg]
  simp only [hmod, hdiv]
  rw [if_pos ⟨hbx1, hbx2, hby1, hby2⟩, if_pos ⟨hbx1, hbx2, hby1, hby2⟩]
  unfold strokeCell
  simp only []
  rw [if_pos hin]
  rw [← hpow, ← hlk]
  exact ⟨rfl, rfl⟩

/-- Generic out-of-brush evaluation of `applyDistortion`: any entry
whose decoded coordinates lie at squared distance at least `R²` from the
brush center is left unchanged (whether it is outside the bounding box,
or inside the box and copied through the scratch buffer). -/
lemma applyDistortion_outside_brush (tool : ToolType) (sqrtQ sinQ cosQ : ℚ → ℚ)
    (w h : ℕ) (maps : EngineMaps)
    (mouseX mouseY prevX prevY size strength zoomLevel scale : ℚ)
    (idx : ℕ) (R : ℚ)
    (hR : R = localRadiusOf size zoomLevel scale)
    (hfar : R * R ≤ (((idx % w : ℕ) : ℚ) - mouseX) * (((idx % w : ℕ) : ℚ) - mouseX)
        + (((idx / w : ℕ) : ℚ) - mouseY) * (((idx / w : ℕ) : ℚ) - mouseY)) :
    (applyDistortion tool sqrtQ sinQ cosQ w h maps mouseX mouseY prevX prevY
        size strength zoomLevel scale).mapX idx = maps.mapX idx
    ∧ (applyDistortion tool sqrtQ sinQ cosQ w h maps mouseX mouseY prevX prevY
        size strength zoomLevel scale).mapY idx = maps.mapY idx := by
  subst hR
  unfold applyDistortion
  simp only []
  by_cases hdeg : strokeMaxX w mouseX (localRadiusOf size zoomLevel scale)
        - strokeMinX mouseX (localRadiusOf size zoomLevel scale) ≤ 0
      ∨ strokeMaxY h mouseY (localRadiusOf size zoomLevel scale)
        - strokeMinY mouseY (localRadiusOf size zoomLevel scale) ≤ 0
  · rw [if_pos hdeg]
    exact ⟨rfl, rfl⟩
  · rw [if_neg hdeg]
    simp only []
    by_cases hbox : strokeMinX mouseX (localRadiusOf size zoomLevel scale)
          ≤ ((idx % w : ℕ) : ℤ)
        ∧ ((idx % w : ℕ) : ℤ) < strokeMaxX w mouseX (localRadiusOf size zoomLevel scale)
        ∧ strokeMinY mouseY (localRadiusOf size zoomLevel scale)
          ≤ ((idx / w : ℕ) : ℤ)
        ∧ ((idx / w : ℕ) : ℤ) < strokeMaxY h mouseY (localRadiusOf size zoomLevel scale)
    · rw [if_pos hbox, if_pos hbox]
      unfold strokeCell
      simp only []
      rw [if_neg (not_lt.mpr hfar)]
      rw [Nat.div_add_mod' idx w]
      exact ⟨rfl, rfl⟩
    · rw [if_neg hbox, if_neg hbox]
      exact ⟨rfl, rfl⟩

/-- C1: for every brush update and every destination pixel strictly
inside the brush radius, the committed displacement-map value at that
pixel equals the pre-stroke maps bilinearly resampled at the
tool-specific lookup point (not the lookup point itself); the right-hand
side mentions only the pre-stroke `maps`, reflecting that the whole pass
reads the old map and commits scratch results afterwards. -/
theorem applyDistortion_composes_with_existing_map (tool : ToolType)
    (sqrtQ sinQ cosQ : ℚ → ℚ) (w h : ℕ) (maps : EngineMaps)
    (mouseX mouseY prevX prevY size strength zoomLevel scale : ℚ)
    (gx gy : ℕ) (R power lx ly : ℚ)
    (hR : R = localRadiusOf size zoomLevel scale)
    (hbx1 : strokeMinX mouseX R ≤ (gx : ℤ))
    (hbx2 : (gx : ℤ) < strokeMaxX w mouseX R)
    (hby1 : strokeMinY mouseY R ≤ (gy : ℤ))
    (hby2 : (gy : ℤ) < strokeMaxY h mouseY R)
    (hin : ((gx : ℚ) - mouseX) * ((gx : ℚ) - mouseX)
        + ((gy : ℚ) - mouseY) * ((gy : ℚ) - mouseY) < R * R)
    (hpow : power = smoothstepQ ((R - sqrtQ (((gx : ℚ) - mouseX) * ((gx : ℚ) - mouseX)
        + ((gy : ℚ) - mouseY) * ((gy : ℚ) - mouseY))) / R) * strength)
    (hlk : (lx, ly) = toolLookup tool sinQ cosQ (gx : ℚ) (gy : ℚ)
        ((gx : ℚ) - mouseX) ((gy : ℚ) - mouseY) mouseX mouseY
        (mouseX - prevX) (mouseY - prevY) power) :
    (applyDistortion tool sqrtQ sinQ cosQ w h maps mouseX mouseY prevX prevY
        size strength zoomLevel scale).mapX (gy * w + gx)
      = sampleGrid maps.mapX w h lx ly
    ∧ (applyDistortion tool sqrtQ sinQ cosQ w h maps mouseX mouseY prevX prevY
        size strength zoomLevel scale).mapY (gy * w + gx)
      = sampleGrid maps.mapY w h lx ly :=
  applyDistortion_in_box tool sqrtQ sinQ cosQ w h maps mouseX mouseY prevX prevY
    size strength zoomLevel scale gx gy R power lx ly hR hbx1 hbx2 hby1 hby2
    hin hpow hlk

/-- C3: every map entry at squared distance at least `R²` from the brush
center is bit-for-bit unchanged by `applyDistortion` (outside the
bounding box it is not touched; inside the box it is copied through the
scratch buffer unchanged). -/
theorem applyDistortion_locality (tool : ToolType) (sqrtQ sinQ cosQ : ℚ → ℚ)
    (w h : ℕ) (maps : EngineMaps)
    (mouseX mouseY prevX prevY size strength zoomLevel scale : ℚ)
    (idx : ℕ) (R : ℚ)
    (hR : R = localRadiusOf size zoomLevel scale)
    (hfar : R * R ≤ (((idx % w : ℕ) : ℚ) - mouseX) * (((idx % w : ℕ) : ℚ) - mouseX)
        + (((idx / w : ℕ) : ℚ) - mouseY) * (((idx / w : ℕ) : ℚ) - mouseY)) :
    (applyDistortion tool sqrtQ sinQ cosQ w h maps mouseX mouseY prevX prevY
        size strength zoomLevel scale).mapX idx = maps.mapX idx
    ∧ (applyDistortion tool sqrtQ sinQ cosQ w h maps mouseX mouseY prevX prevY
        size strength zoomLevel scale).mapY idx = maps.mapY idx :=
  applyDistortion_outside_brush tool sqrtQ sinQ cosQ w h maps mouseX mouseY
    prevX prevY size strength zoomLevel scale idx R hR hfar

/-- Witness for C1: a concrete WARP stroke on a 4×4 identity map. -/
theorem applyDistortion_composes_with_existing_map_witness :
    ((((2 : ℕ) : ℚ)) - 2) * ((((2 : ℕ) : ℚ)) - 2)
      + ((((2 : ℕ) : ℚ)) - 2) * ((((2 : ℕ) : ℚ)) - 2) < 2 * 2
    ∧ (applyDistortion .WARP (fun _ => 0) (fun _ => 0) (fun _ => 1) 4 4
        ⟨initMapX 4, initMapY 4⟩ 2 2 1 2 4 1 1 1).mapX (2 * 4 + 2)
      = sampleGrid (initMapX 4) 4 4 1 2
    ∧ (applyDistortion .WARP (fun _ => 0) (fun _ => 0) (fun _ => 1) 4 4
        ⟨initMapX 4, initMapY 4⟩ 2 2 1 2 4 1 1 1).mapY (2 * 4 + 2)
      = sampleGrid (initMapY 4) 4 4 1 2 := by
  refine ⟨by norm_num, ?_⟩
  exact applyDistortion_composes_with_existing_map .WARP (fun _ => 0)
    (fun _ => 0) (fun _ => 1) 4 4 ⟨initMapX 4, initMapY 4⟩ 2 2 1 2 4 1 1 1
    2 2 2 1 1 2
    (by norm_num [localRadiusOf]) (by norm_num [strokeMinX])
    (by norm_num [strokeMaxX]) (by norm_num [strokeMinY])
    (by norm_num [strokeMaxY])
    (by norm_num) (by norm_num [smoothstepQ]) (by norm_num [toolLookup])

/-- Witness for C3: the entry at (0,0), at squared distance 8 ≥ 4 from
the brush center (2,2), is unchanged. -/
theorem applyDistortion_locality_witness :
    (2 : ℚ) * 2 ≤ ((((0 % 4 : ℕ) : ℚ)) - 2) * ((((0 % 4 : ℕ) : ℚ)) - 2)
      + ((((0 / 4 : ℕ) : ℚ)) - 2) * ((((0 / 4 : ℕ) : ℚ)) - 2)
    ∧ (applyDistortion .WARP (fun _ => 0) (fun _ => 0) (fun _ => 1) 4 4
        ⟨initMapX 4, initMapY 4⟩ 2 2 1 2 4 1 1 1).mapX 0 = initMapX 4 0
    ∧ (applyDistortion .WARP (fun _ => 0) (fun _ => 0) (fun _ => 1) 4 4
        ⟨initMapX 4, initMapY 4⟩ 2 2 1 2 4 1 1 1).mapY 0 = initMapY 4 0 := by
  refine ⟨by norm_num, ?_⟩
  exact applyDistortion_locality .WARP (fun _ => 0) (fun _ => 0) (fun _ => 1)
    4 4 ⟨initMapX 4, initMapY 4⟩ 2 2 1 2 4 1 1 1 0 2
    (by norm_num [localRadiusOf]) (by norm_num)

/-- At zero power every tool's lookup point degenerates to the pixel's
own coordinates (for the twirl this uses `sin 0 = 0`, `cos 0 = 1`). -/
lemma toolLookup_power_zero (tool : ToolType) (sinQ cosQ : ℚ → ℚ)
    (hsin : sinQ 0 = 0) (hcos : cosQ 0 = 1)
    (gx gy mouseX mouseY dx dy : ℚ) :
    toolLookup tool sinQ cosQ gx gy (gx - mouseX) (gy - mouseY)
      mouseX mouseY dx dy 0 = (gx, gy) := by
  cases tool <;> simp [toolLookup, hsin, hcos]

/-- C10: a brush update with strength 0 leaves the displacement map
bit-for-bit unchanged, even inside the brush radius: the power is 0,
every tool's lookup degenerates to the pixel's own coordinates, and
bilinear resampling of the map at exact in-bounds integer coordinates
returns the stored value exactly. -/
theorem applyDistortion_strength_zero_noop (tool : ToolType)
    (sqrtQ sinQ cosQ : ℚ → ℚ) (w h : ℕ) (maps : EngineMaps)
    (mouseX mouseY prevX prevY size zoomLevel scale : ℚ) (idx : ℕ)
    (hsin : sinQ 0 = 0) (hcos : cosQ 0 = 1)
    (_hzoom : 0 < zoomLevel) (_hscale : 0 < scale) :
    (applyDistortion tool sqrtQ sinQ cosQ w h maps mouseX mouseY prevX prevY
        size 0 zoomLevel scale).mapX idx = maps.mapX idx
    ∧ (applyDistortion tool sqrtQ sinQ cosQ w h maps mouseX mouseY prevX prevY
        size 0 zoomLevel scale).mapY idx = maps.mapY idx := by
  unfold applyDistortion
  simp only []
  by_cases hdeg : strokeMaxX w mouseX (localRadiusOf size zoomLevel scale)
        - strokeMinX mouseX (localRadiusOf size zoomLevel scale) ≤ 0
      ∨ strokeMaxY h mouseY (localRadiusOf size zoomLevel scale)
        - strokeMinY mouseY (localRadiusOf size zoomLevel scale) ≤ 0
  · rw [if_pos hdeg]
    exact ⟨rfl, rfl⟩
  · rw [if_neg hdeg]
    simp only []
    by_cases hbox : strokeMinX mouseX (localRadiusOf size zoomLevel scale)
          ≤ ((idx % w : ℕ) : ℤ)
        ∧ ((idx % w : ℕ) : ℤ) < strokeMaxX w mouseX (localRadiusOf size zoomLevel scale)
        ∧ strokeMinY mouseY (localRadiusOf size zoomLevel scale)
          ≤ ((idx / w : ℕ) : ℤ)
        ∧ ((idx / w : ℕ) : ℤ) < strokeMaxY h mouseY (localRadiusOf size zoomLevel scale)
    · rw [if_pos hbox, if_pos hbox]
      unfold strokeCell
      simp only []
      have hgw : idx % w < w := by
        have := hbox.2.1
        unfold strokeMaxX at this
        omega
      have hgh : idx / w < h := by
        have := hbox.2.2.2
        unfold strokeMaxY at this
        omega
      by_cases hin : (((idx % w : ℕ) : ℚ) - mouseX) * (((idx % w : ℕ) : ℚ) - mouseX)
          + (((idx / w : ℕ) : ℚ) - mouseY) * (((idx / w : ℕ) : ℚ) - mouseY)
          < localRadiusOf size zoomLevel scale * localRadiusOf size zoomLevel scale
      · rw [if_pos hin]
        rw [mul_zero]
        rw [toolLookup_power_zero tool sinQ cosQ hsin hcos]
        simp only []
        rw [sampleGrid_int maps.mapX w h _ _ hgw hgh,
          sampleGrid_int maps.mapY w h _ _ hgw hgh]
        rw [Nat.div_add_mod' idx w]
        exact ⟨rfl, rfl⟩
      · rw [if_neg hin]
        rw [Nat.div_add_mod' idx w]
        exact ⟨rfl, rfl⟩
    · rw [if_neg hbox, if_neg hbox]
      exact ⟨rfl, rfl⟩

/-- Witness for C10: strength-0 WARP stroke at a cell inside the brush. -/
theorem applyDistortion_strength_zero_noop_witness :
    (fun _ : ℚ => (0 : ℚ)) 0 = 0 ∧ (fun _ : ℚ => (1 : ℚ)) 0 = 1
    ∧ (0 : ℚ) < 1 ∧ (0 : ℚ) < 1
    ∧ (applyDistortion .TWIRL_CW (fun _ => 0) (fun _ => 0) (fun _ => 1) 4 4
        ⟨initMapX 4, initMapY 4⟩ 2 2 1 2 4 0 1 1).mapX 10 = initMapX 4 10
    ∧ (applyDistortion .TWIRL_CW (fun _ => 0) (fun _ => 0) (fun _ => 1) 4 4
        ⟨initMapX 4, initMapY 4⟩ 2 2 1 2 4 0 1 1).mapY 10 = initMapY 4 10 := by
  refine ⟨rfl, rfl, by norm_num, by norm_num, ?_⟩
  exact applyDistortion_strength_zero_noop .TWIRL_CW (fun _ => 0) (fun _ => 0)
    (fun _ => 1) 4 4 ⟨initMapX 4, initMapY 4⟩ 2 2 1 2 4 1 1 10
    rfl rfl (by norm_num) (by norm_num)

/-- C5: the spec's concrete scenario.  4×4 identity map, WARP stroke
with center (2,2), local radius 2 (size 4, zoom 1, scale 1), strength 1
and delta (1,0): the map entry at pixel (2,2) becomes exactly (1,2)
(shifted left by `strength * smoothstep 1 = 1`), while the entry at
pixel (0,0), at squared distance 8 > 4, is unchanged. -/
theorem warp_scenario_concrete (sqrtQ sinQ cosQ : ℚ → ℚ)
    (hsqrt : sqrtQ 0 = 0) :
    (applyDistortion .WARP sqrtQ sinQ cosQ 4 4 ⟨initMapX 4, initMapY 4⟩
        2 2 1 2 4 1 1 1).mapX (2 * 4 + 2) = 1
    ∧ (applyDistortion .WARP sqrtQ sinQ cosQ 4 4 ⟨initMapX 4, initMapY 4⟩
        2 2 1 2 4 1 1 1).mapY (2 * 4 + 2) = 2
    ∧ (applyDistortion .WARP sqrtQ sinQ cosQ 4 4 ⟨initMapX 4, initMapY 4⟩
        2 2 1 2 4 1 1 1).mapX 0 = initMapX 4 0
    ∧ (applyDistortion .WARP sqrtQ sinQ cosQ 4 4 ⟨initMapX 4, initMapY 4⟩
        2 2 1 2 4 1 1 1).mapY 0 = initMapY 4 0 := by
  have harg : (((2 : ℕ) : ℚ) - 2) * (((2 : ℕ) : ℚ) - 2)
      + (((2 : ℕ) : ℚ) - 2) * (((2 : ℕ) : ℚ) - 2) = 0 := by norm_num
  obtain ⟨h1, h2⟩ := applyDistortion_in_box .WARP sqrtQ sinQ cosQ 4 4
    ⟨initMapX 4, initMapY 4⟩ 2 2 1 2 4 1 1 1 2 2 2 1 1 2
    (by norm_num [localRadiusOf]) (by norm_num [strokeMinX])
    (by norm_num [strokeMaxX]) (by norm_num [strokeMinY])
    (by norm_num [strokeMaxY])
    (by norm_num)
    (by rw [harg, hsqrt]; norm_num [smoothstepQ])
    (by norm_num [toolLookup])
  obtain ⟨h3, h4⟩ := applyDistortion_outside_brush .WARP sqrtQ sinQ cosQ 4 4
    ⟨initMapX 4, initMapY 4⟩ 2 2 1 2 4 1 1 1 0 2
    (by norm_num [localRadiusOf]) (by norm_num)
  refine ⟨?_, ?_, h3, h4⟩
  · rw [h1]
    show sampleGrid (initMapX 4) 4 4 1 2 = 1
    have h := sampleGrid_int (initMapX 4) 4 4 1 2 (by norm_num) (by norm_num)
    norm_num at h
    rw [h]
    norm_num [initMapX]
  · rw [h2]
    show sampleGrid (initMapY 4) 4 4 1 2 = 2
    have h := sampleGrid_int (initMapY 4) 4 4 1 2 (by norm_num) (by norm_num)
    norm_num at h
    rw [h]
    norm_num [initMapY]

/-- Witness for C5 with a concrete square-root function. -/
theorem warp_scenario_concrete_witness :
    (fun _ : ℚ => (0 : ℚ)) 0 = 0
    ∧ ((applyDistortion .WARP (fun _ => 0) (fun _ => 0) (fun _ => 1) 4 4
          ⟨initMapX 4, initMapY 4⟩ 2 2 1 2 4 1 1 1).mapX (2 * 4 + 2) = 1
      ∧ (applyDistortion .WARP (fun _ => 0) (fun _ => 0) (fun _ => 1) 4 4
          ⟨initMapX 4, initMapY 4⟩ 2 2 1 2 4 1 1 1).mapY (2 * 4 + 2) = 2
      ∧ (applyDistortion .WARP (fun _ => 0) (fun _ => 0) (fun _ => 1) 4 4
          ⟨initMapX 4, initMapY 4⟩ 2 2 1 2 4 1 1 1).mapX 0 = initMapX 4 0
      ∧ (applyDistortion .WARP (fun _ => 0) (fun _ => 0) (fun _ => 1) 4 4
          ⟨initMapX 4, initMapY 4⟩ 2 2 1 2 4 1 1 1).mapY 0 = initMapY 4 0) :=
  ⟨rfl, warp_scenario_concrete (fun _ => 0) (fun _ => 0) (fun _ => 1) rfl⟩

/-- The falloff power a WARP stroke introduces at distance `d` from the
brush center, extracted from the brush loop: cells with `d² ≥ R²` take
the copy branch and so receive power 0; cells inside get
`smoothstep((R-d)/R) * strength` exactly as in `strokeCell`. -/
def warpIntroducedPower (localRadius strength d : ℚ) : ℚ :=
  if d * d < localRadius * localRadius then
    smoothstepQ ((localRadius - d) / localRadius) * strength
  else 0

/-- Squared magnitude of the displacement a WARP stroke with delta
`(dx, dy)` introduces at distance `d`: the lookup offset is
`(dx, dy) * power`. -/
def warpDisplacementMagSq (dx dy localRadius strength d : ℚ) : ℚ :=
  (dx * dx + dy * dy)
    * (warpIntroducedPower localRadius strength d
        * warpIntroducedPower localRadius strength d)

lemma smoothstepQ_nonneg (t : ℚ) (_h0 : 0 ≤ t) (h1 : t ≤ 1) :
    0 ≤ smoothstepQ t := by
  unfold smoothstepQ
  nlinarith

lemma smoothstepQ_mono (a b : ℚ) (h0 : 0 ≤ a) (hab : a ≤ b) (h1 : b ≤ 1) :
    smoothstepQ a ≤ smoothstepQ b := by
  unfold smoothstepQ
  nlinarith [mul_nonneg (sub_nonneg.2 hab) (mul_nonneg h0 (sub_nonneg.2 h1)),
    mul_nonneg (sub_nonneg.2 hab) (sub_nonneg.2 h1),
    mul_nonneg h0 (sub_nonneg.2 hab)]

lemma warpIntroducedPower_nonneg (localRadius strength d : ℚ)
    (hR : 0 < localRadius) (hs : 0 ≤ strength) (h0 : 0 ≤ d)
    (hd : d ≤ localRadius) : 0 ≤ warpIntroducedPower localRadius strength d := by
  unfold warpIntroducedPower
  split
  · refine mul_nonneg (smoothstepQ_nonneg _ ?_ ?_) hs
    · exact div_nonneg (by linarith) hR.le
    · rw [div_le_one hR]; linarith
  · exact le_refl 0

/-- C6: for a WARP stroke, the falloff power (hence the displacement
magnitude) introduced at distance `d` from the center is non-increasing
in `d` on `[0, R]` and is exactly 0 at `d = R` (at the rim the brush
loop takes the copy branch, and `smoothstep 0 = 0` as well). -/
theorem warp_falloff_monotone (dx dy localRadius strength d1 d2 : ℚ)
    (hR : 0 < localRadius) (hs : 0 ≤ strength)
    (h0 : 0 ≤ d1) (h12 : d1 ≤ d2) (h2 : d2 ≤ localRadius) :
    warpIntroducedPower localRadius strength d2
      ≤ warpIntroducedPower localRadius strength d1
    ∧ warpIntroducedPower localRadius strength localRadius = 0
    ∧ warpDisplacementMagSq dx dy localRadius strength d2
      ≤ warpDisplacementMagSq dx dy localRadius strength d1 := by
  have hnn1 : 0 ≤ warpIntroducedPower localRadius strength d1 :=
    warpIntroducedPower_nonneg localRadius strength d1 hR hs h0 (h12.trans h2)
  have hnn2 : 0 ≤ warpIntroducedPower localRadius strength d2 :=
    warpIntroducedPower_nonneg localRadius strength d2 hR hs (h0.trans h12) h2
  have hmono : warpIntroducedPower localRadius strength d2
      ≤ warpIntroducedPower localRadius strength d1 := by
    by_cases hc2 : d2 * d2 < localRadius * localRadius
    · have hc1 : d1 * d1 < localRadius * localRadius := by nlinarith
      unfold warpIntroducedPower
      rw [if_pos hc1, if_pos hc2]
      refine mul_le_mul_of_nonneg_right ?_ hs
      refine smoothstepQ_mono _ _ ?_ ?_ ?_
      · exact div_nonneg (by linarith) hR.le
      · exact (div_le_div_iff_of_pos_right hR).2 (by linarith)
      · rw [div_le_one hR]; linarith
    · have hz2 : warpIntroducedPower localRadius strength d2 = 0 := by
        unfold warpIntroducedPower
        rw [if_neg hc2]
      rw [hz2]
      exact hnn1
  refine ⟨hmono, ?_, ?_⟩
  · unfold warpIntroducedPower
    rw [if_neg (lt_irrefl _)]
  · unfold warpDisplacementMagSq
    refine mul_le_mul_of_nonneg_left ?_
      (add_nonneg (mul_self_nonneg dx) (mul_self_nonneg dy))
    exact mul_self_le_mul_self hnn2 hmono

/-- Witness for C6 at `R = 2`, `strength = 1`, `d1 = 0`, `d2 = 1`. -/
theorem warp_falloff_monotone_witness :
    (0 : ℚ) < 2 ∧ (0 : ℚ) ≤ 1 ∧ (0 : ℚ) ≤ 0 ∧ (0 : ℚ) ≤ 1 ∧ (1 : ℚ) ≤ 2
    ∧ (warpIntroducedPower 2 1 1 ≤ warpIntroducedPower 2 1 0
      ∧ warpIntroducedPower 2 1 2 = 0
      ∧ warpDisplacementMagSq 1 0 2 1 1 ≤ warpDisplacementMagSq 1 0 2 1 0) :=
  ⟨by norm_num, by norm_num, le_refl 0, by norm_num, by norm_num,
   warp_falloff_monotone 1 0 2 1 0 1 (by norm_num) (by norm_num) (le_refl 0)
     (by norm_num) (by norm_num)⟩

/-- Flat pixel index of a bilinear corner after the spec's independent
edge clamp of each integer neighbor coordinate into
`[0, width-1] × [0, height-1]`. -/
def clampedCorner (w h : ℕ) (xi yi : ℤ) : ℕ :=
  (clampZ ((h : ℤ) - 1) yi).toNat * w + (clampZ ((w : ℤ) - 1) xi).toNat

/-- The §4.2 bilinear formula as worded by the spec: corners at
`x0 = ⌊u⌋`, `x1 = x0+1`, `y0 = ⌊v⌋`, `y1 = y0+1`, each independently
clamped before lookup, combined with the fractional-part weights. -/
def bilinearSpecR (r : Raster) (u v : ℚ) (c : ℕ) : ℚ :=
  let x0 : ℤ := ⌊u⌋
  let y0 : ℤ := ⌊v⌋
  let fx : ℚ := u - (x0 : ℚ)
  let fy : ℚ := v - (y0 : ℚ)
  (r.data (clampedCorner r.width r.height x0 y0 * 4 + c) : ℚ) * (1 - fx) * (1 - fy)
  + (r.data (clampedCorner r.width r.height (x0 + 1) y0 * 4 + c) : ℚ) * fx * (1 - fy)
  + (r.data (clampedCorner r.width r.height x0 (y0 + 1) * 4 + c) : ℚ) * (1 - fx) * fy
  + (r.data (clampedCorner r.width r.height (x0 + 1) (y0 + 1) * 4 + c) : ℚ) * fx * fy

/-- C4: for every raster and arbitrary (even far out-of-range) map
values, the renderer's output byte is the `Uint8ClampedArray` store of
the spec's bilinear formula — the weighted sum, per channel including
alpha, of the four corner samples with each corner independently
clamped into bounds — every clamped corner lookup stays strictly inside
the pixel buffer, and the weights are fractional parts in `[0, 1)`. -/
theorem bilinear_resampler_correct (mapX mapY : ℕ → ℚ) (original : Raster)
    (startX startY regionW totalW x y c : ℕ)
    (hx : x < regionW) (hc : c < 4)
    (hw : 1 ≤ original.width) (hh : 1 ≤ original.height) :
    renderRegionFromMapsRef startX startY regionW totalW mapX mapY original
        ((y * regionW + x) * 4 + c)
      = u8clamp (bilinearSpecR original
          (mapX ((startY + y) * totalW + (startX + x)))
          (mapY ((startY + y) * totalW + (startX + x))) c)
    ∧ (∀ xi yi : ℤ, clampedCorner original.width original.height xi yi * 4 + c
        < 4 * (original.width * original.height))
    ∧ (∀ q : ℚ, 0 ≤ q - (⌊q⌋ : ℚ) ∧ q - (⌊q⌋ : ℚ) < 1) := by
  refine ⟨?_, ?_, ?_⟩
  · unfold renderRegionFromMapsRef
    simp only []
    have h1 : ((y * regionW + x) * 4 + c) % 4 = c := by omega
    have h2 : ((y * regionW + x) * 4 + c) / 4 = y * regionW + x := by omega
    rw [h1, h2]
    have h3 : (y * regionW + x) % regionW = x := by
      rw [mul_comm y, Nat.mul_add_mod, Nat.mod_eq_of_lt hx]
    have h4 : (y * regionW + x) / regionW = y := by
      rw [mul_comm y, Nat.mul_add_div (by omega), Nat.div_eq_of_lt hx, add_zero]
    rw [h3, h4]
    rfl
  · intro xi yi
    unfold clampedCorner
    have hylt : (clampZ ((original.height : ℤ) - 1) yi).toNat < original.height := by
      unfold clampZ; omega
    have hxlt : (clampZ ((original.width : ℤ) - 1) xi).toNat < original.width := by
      unfold clampZ; omega
    have hidx : (clampZ ((original.height : ℤ) - 1) yi).toNat * original.width
        + (clampZ ((original.width : ℤ) - 1) xi).toNat
        < original.width * original.height := by
      calc (clampZ ((original.height : ℤ) - 1) yi).toNat * original.width
            + (clampZ ((original.width : ℤ) - 1) xi).toNat
          < (clampZ ((original.height : ℤ) - 1) yi).toNat * original.width
            + original.width := by omega
        _ = ((clampZ ((original.height : ℤ) - 1) yi).toNat + 1) * original.width := by
            ring
        _ ≤ original.height * original.width :=
            Nat.mul_le_mul_right original.width (by omega)
        _ = original.width * original.height := Nat.mul_comm _ _
    omega
  · intro q
    constructor
    · exact sub_nonneg.2 (Int.floor_le q)
    · have := Int.lt_floor_add_one q
      linarith

/-- Witness for C4 with a far out-of-range map value. -/
theorem bilinear_resampler_correct_witness :
    (0 : ℕ) < 1 ∧ (0 : ℕ) < 4 ∧ (1 : ℕ) ≤ 2 ∧ (1 : ℕ) ≤ 2
    ∧ (renderRegionFromMapsRef 0 0 1 2 (fun _ => 1000) (fun _ => -1000)
          (Raster.mk 2 2 (fun i => i)) ((0 * 1 + 0) * 4 + 0)
        = u8clamp (bilinearSpecR (Raster.mk 2 2 (fun i => i))
            ((fun _ : ℕ => (1000 : ℚ)) ((0 + 0) * 2 + (0 + 0)))
            ((fun _ : ℕ => (-1000 : ℚ)) ((0 + 0) * 2 + (0 + 0))) 0)
      ∧ (∀ xi yi : ℤ, clampedCorner 2 2 xi yi * 4 + 0 < 4 * (2 * 2))
      ∧ (∀ q : ℚ, 0 ≤ q - (⌊q⌋ : ℚ) ∧ q - (⌊q⌋ : ℚ) < 1)) :=
  ⟨by norm_num, by norm_num, by norm_num, by norm_num,
   bilinear_resampler_correct (fun _ => 1000) (fun _ => -1000)
     (Raster.mk 2 2 (fun i => i)) 0 0 1 2 0 0 0
     (by norm_num) (by norm_num) (by norm_num) (by norm_num)⟩

/-- `applyLassoMask`: a path with fewer than 3 points is a silent no-op
(`none`); otherwise the pending warp is baked first, and a new raster of
the same dimensions is produced whose alpha byte is forced to 0 wherever
the mask's red byte is 0, all other bytes copied from the baked data.
The polygon rasterization itself happens through the canvas 2d API
outside this repository's code, so the resulting mask byte buffer is a
parameter here. -/
def applyLassoMask (pathLength : ℕ) (mask : ℕ → ℕ) (mapX mapY : ℕ → ℚ)
    (original : Raster) : Option Raster :=
  if pathLength < 3 then none
  else
    let workingData := bakeCurrentWarp mapX mapY original
    some ⟨original.width, original.height,
      fun i => if i % 4 = 3 ∧ mask (i - 3) = 0 then 0 else workingData.data i⟩

/-- C7: with at least 3 path points and an identity displacement map,
`applyLassoMask` succeeds, keeps the source dimensions, zeroes the alpha
of every pixel outside the polygon (mask byte 0) while leaving its RGB
unchanged, and leaves every pixel inside the polygon unchanged in all
four channels.  `inside` is the polygon-membership predicate realized by
the rasterized mask (`hmask`). -/
theorem applyLassoMask_correct (pathLength : ℕ) (mask : ℕ → ℕ)
    (original : Raster) (inside : ℕ → Prop)
    (hpath : 3 ≤ pathLength)
    (hdata : ∀ i, original.data i ≤ 255)
    (hmask : ∀ p, inside p ↔ mask (4 * p) ≠ 0) :
    ∃ r : Raster,
      applyLassoMask pathLength mask (initMapX original.width)
        (initMapY original.width) original = some r
      ∧ r.width = original.width ∧ r.height = original.height
      ∧ ∀ px py : ℕ, px < original.width → py < original.height →
          ((¬ inside (py * original.width + px) →
              r.data ((py * original.width + px) * 4 + 3) = 0
              ∧ ∀ c : ℕ, c < 3 →
                r.data ((py * original.width + px) * 4 + c)
                  = original.data ((py * original.width + px) * 4 + c))
          ∧ (inside (py * original.width + px) →
              ∀ c : ℕ, c < 4 →
                r.data ((py * original.width + px) * 4 + c)
                  = original.data ((py * original.width + px) * 4 + c))) := by
  unfold applyLassoMask
  rw [if_neg (by omega : ¬ pathLength < 3)]
  refine ⟨_, rfl, rfl, rfl, ?_⟩
  intro px py hpx hpy
  have hbake : ∀ c : ℕ, c < 4 →
      (bakeCurrentWarp (initMapX original.width) (initMapY original.width)
        original).data ((py * original.width + px) * 4 + c)
      = original.data ((py * original.width + px) * 4 + c) := by
    intro c hc
    show renderRegionFromMapsRef 0 0 original.width original.width
        (initMapX original.width) (initMapY original.width) original
        ((py * original.width + px) * 4 + c)
      = original.data ((py * original.width + px) * 4 + c)
    exact renderRegion_identity original hdata px py c hpx hpy hc
  constructor
  · intro hout
    have hm0 : mask (4 * (py * original.width + px)) = 0 := by
      by_contra hne
      exact hout ((hmask _).2 hne)
    constructor
    · show (if ((py * original.width + px) * 4 + 3) % 4 = 3
            ∧ mask ((py * original.width + px) * 4 + 3 - 3) = 0 then 0
          else _) = 0
      rw [if_pos]
      refine ⟨by omega, ?_⟩
      have harg : (py * original.width + px) * 4 + 3 - 3
          = 4 * (py * original.width + px) := by omega
      rw [harg]
      exact hm0
    · intro c hc
      show (if ((py * original.width + px) * 4 + c) % 4 = 3
            ∧ mask ((py * original.width + px) * 4 + c - 3) = 0 then 0
          else _) = original.data ((py * original.width + px) * 4 + c)
      rw [if_neg (by rintro ⟨h3, -⟩; omega)]
      exact hbake c (by omega)
  · intro hin c hc
    have hmne : mask (4 * (py * original.width + px)) ≠ 0 := (hmask _).1 hin
    show (if ((py * original.width + px) * 4 + c) % 4 = 3
          ∧ mask ((py * original.width + px) * 4 + c - 3) = 0 then 0
        else _) = original.data ((py * original.width + px) * 4 + c)
    by_cases hc3 : c = 3
    · subst hc3
      rw [if_neg]
      · exact hbake 3 (by norm_num)
      · rintro ⟨-, hm⟩
        have harg : (py * original.width + px) * 4 + 3 - 3
            = 4 * (py * original.width + px) := by omega
        rw [harg] at hm
        exact hmne hm
    · rw [if_neg (by rintro ⟨h3, -⟩; omega)]
      exact hbake c hc

/-- Witness for C7: a 2×1 raster whose left pixel is inside the lasso
and whose right pixel is outside. -/
theorem applyLassoMask_correct_witness :
    (3 : ℕ) ≤ 4
    ∧ (∀ i, (Raster.mk 2 1 (fun _ => 50)).data i ≤ 255)
    ∧ (∀ p : ℕ, (p % 2 = 0)
        ↔ (fun i => if (i / 4) % 2 = 0 then 255 else 0) (4 * p) ≠ 0)
    ∧ ∃ r : Raster,
        applyLassoMask 4 (fun i => if (i / 4) % 2 = 0 then 255 else 0)
          (initMapX 2) (initMapY 2) (Raster.mk 2 1 (fun _ => 50)) = some r
        ∧ r.width = 2 ∧ r.height = 1
        ∧ ∀ px py : ℕ, px < 2 → py < 1 →
            ((¬ (py * 2 + px) % 2 = 0 →
                r.data ((py * 2 + px) * 4 + 3) = 0
                ∧ ∀ c : ℕ, c < 3 →
                  r.data ((py * 2 + px) * 4 + c)
                    = (Raster.mk 2 1 (fun _ => 50)).data ((py * 2 + px) * 4 + c))
            ∧ ((py * 2 + px) % 2 = 0 →
                ∀ c : ℕ, c < 4 →
                  r.data ((py * 2 + px) * 4 + c)
                    = (Raster.mk 2 1 (fun _ => 50)).data ((py * 2 + px) * 4 + c))) := by
  refine ⟨by norm_num, fun i => by norm_num, ?_, ?_⟩
  · intro p
    have h4 : (4 * p) / 4 = p := by omega
    by_cases h : p % 2 = 0 <;> simp [h4, h]
  · exact applyLassoMask_correct 4 (fun i => if (i / 4) % 2 = 0 then 255 else 0)
      (Raster.mk 2 1 (fun _ => 50)) (fun p => p % 2 = 0)
      (by norm_num) (fun i => by norm_num)
      (fun p => by
        have h4 : (4 * p) / 4 = p := by omega
        by_cases h : p % 2 = 0 <;> simp [h4, h])

/-- A layer, from `types.ts`; the pixel buffer is a `Raster` value. -/
structure Layer where
  id : String
  name : String
  visible : Bool
  imageData : Option Raster
  blendMode : String
  opacity : ℚ
  x : ℚ
  y : ℚ
  scale : ℚ
  rotation : ℚ

/-- `cloneLayers`: rebuilds each layer with a fresh copy of its pixel
buffer (`new ImageData(new Uint8ClampedArray(data), w, h)`).  In this
pure value model the rebuilt buffer is provably equal to the source
buffer, which is exactly the deep-equality the snapshot contract
demands (aliasing of mutable buffers has no counterpart here). -/
def cloneLayers (layersToClone : List Layer) : List Layer :=
  layersToClone.map fun layer =>
    { layer with
      imageData := layer.imageData.map fun d => ⟨d.width, d.height, fun i => d.data i⟩ }

/-- One history snapshot: the cloned layer stack plus the active id. -/
structure HistoryStep where
  layers : List Layer
  activeLayerId : String

/-- `HISTORY_MAX_STEPS = 20`. -/
def HISTORY_MAX_STEPS : ℕ := 20

/-- The app state relevant to history: the live layer stack and active
id, the snapshot list, and the current index (initially `-1`). -/
structure AppState where
  layers : List Layer
  activeLayerId : String
  history : List HistoryStep
  historyIndex : ℤ

def emptyStep : HistoryStep := ⟨[], ""⟩

/-- `commitToHistory(newLayers, newActiveId)` together with the
`setLayers` call every caller pairs it with: slice the history to the
current index (discarding redo entries), push a cloned snapshot, drop
the oldest entry if the cap is exceeded, and advance the index, capping
it at `HISTORY_MAX_STEPS - 1`. -/
def commitToHistory (newLayers : List Layer) (newActiveId : String)
    (s : AppState) : AppState :=
  let currentHist := s.history.take (s.historyIndex + 1).toNat
  let snapshot : HistoryStep := ⟨cloneLayers newLayers, newActiveId⟩
  let newHist0 := currentHist ++ [snapshot]
  let newHist := if HISTORY_MAX_STEPS < newHist0.length then newHist0.tail else newHist0
  let nextIdx : ℤ :=
    if (HISTORY_MAX_STEPS : ℤ) ≤ s.historyIndex + 1 then (HISTORY_MAX_STEPS : ℤ) - 1
    else s.historyIndex + 1
  ⟨newLayers, newActiveId, newHist, nextIdx⟩

/-- `undoAction`: if the index is positive, restore a clone of the
previous snapshot and decrement the index; otherwise do nothing. -/
def undoAction (s : AppState) : AppState :=
  if 0 < s.historyIndex then
    let prevIndex := s.historyIndex - 1
    let step := s.history.getD prevIndex.toNat emptyStep
    ⟨cloneLayers step.layers, step.activeLayerId, s.history, prevIndex⟩
  else s

/-- `redoAction`: if the index is below the last snapshot, restore a
clone of the next snapshot and increment the index. -/
def redoAction (s : AppState) : AppState :=
  if s.historyIndex < (s.history.length : ℤ) - 1 then
    let nextIndex := s.historyIndex + 1
    let step := s.history.getD nextIndex.toNat emptyStep
    ⟨cloneLayers step.layers, step.activeLayerId, s.history, nextIndex⟩
  else s

lemma cloneLayers_eq_self (ls : List Layer) : cloneLayers ls = ls := by
  have h : ∀ l : Layer,
      ({ l with
        imageData := l.imageData.map fun d => ⟨d.width, d.height, fun i => d.data i⟩ } : Layer) = l := by
    intro l
    obtain ⟨lid, lname, lvis, limg, lbm, lop, lx, ly, lsc, lrot⟩ := l
    cases limg <;> rfl
  induction ls with
  | nil => rfl
  | cons a t ih =>
      unfold cloneLayers at ih ⊢
      simp only [List.map_cons]
      rw [h a, ih]

/-- A commit made at the tip of a bounded history appends the snapshot,
leaves the index at the new tip, and preserves the bound; the retained
prefix is the whole old history when below the cap, and the old history
minus its oldest entry when at the cap. -/
lemma tail_append_singleton {α : Type} (l : List α) (x : α) (h : l ≠ []) :
    (l ++ [x]).tail = l.tail ++ [x] := by
  cases l with
  | nil => exact absurd rfl h
  | cons a t => rfl

lemma commitToHistory_at_tip (s : AppState) (L : List Layer) (a : String)
    (htip : s.historyIndex = (s.history.length : ℤ) - 1)
    (hlen : s.history.length ≤ HISTORY_MAX_STEPS) :
    ∃ B : List HistoryStep,
      (commitToHistory L a s).history = B ++ [⟨L, a⟩]
      ∧ (commitToHistory L a s).historyIndex = (B.length : ℤ)
      ∧ (commitToHistory L a s).history.length ≤ HISTORY_MAX_STEPS
      ∧ (commitToHistory L a s).layers = L
      ∧ (commitToHistory L a s).activeLayerId = a
      ∧ ((s.history.length < HISTORY_MAX_STEPS ∧ B = s.history)
        ∨ (s.history.length = HISTORY_MAX_STEPS ∧ B = s.history.tail)) := by
  have hH : HISTORY_MAX_STEPS = 20 := rfl
  have htake : s.history.take (s.historyIndex + 1).toNat = s.history := by
    have h1 : (s.historyIndex + 1).toNat = s.history.length := by omega
    rw [h1, List.take_length]
  unfold commitToHistory
  simp only [htake, cloneLayers_eq_self]
  by_cases hcap : s.history.length = HISTORY_MAX_STEPS
  · have hshift : HISTORY_MAX_STEPS < (s.history ++ [(⟨L, a⟩ : HistoryStep)]).length := by
      rw [List.length_append, List.length_singleton]
      omega
    have hidx : (HISTORY_MAX_STEPS : ℤ) ≤ s.historyIndex + 1 := by omega
    rw [if_pos hshift, if_pos hidx]
    have hne : s.history ≠ [] := by
      intro h
      rw [h] at hcap
      simp [hH] at hcap
    have htail : (s.history ++ [(⟨L, a⟩ : HistoryStep)]).tail
        = s.history.tail ++ [(⟨L, a⟩ : HistoryStep)] :=
      tail_append_singleton s.history _ hne
    refine ⟨s.history.tail, htail, ?_, ?_, trivial, trivial, Or.inr ⟨hcap, rfl⟩⟩
    · show (HISTORY_MAX_STEPS : ℤ) - 1 = (s.history.tail.length : ℤ)
      rw [List.length_tail, hcap]
      rw [hH]
      norm_num
    · show (s.history ++ [(⟨L, a⟩ : HistoryStep)]).tail.length ≤ HISTORY_MAX_STEPS
      rw [htail, List.length_append, List.length_tail, List.length_singleton, hcap]
      omega
  · have hlt : s.history.length < HISTORY_MAX_STEPS := by omega
    have hshift : ¬ HISTORY_MAX_STEPS < (s.history ++ [(⟨L, a⟩ : HistoryStep)]).length := by
      rw [List.length_append, List.length_singleton]
      omega
    have hidx : ¬ (HISTORY_MAX_STEPS : ℤ) ≤ s.historyIndex + 1 := by omega
    rw [if_neg hshift, if_neg hidx]
    refine ⟨s.history, rfl, by omega, ?_, trivial, trivial, Or.inl ⟨hlt, rfl⟩⟩
    rw [List.length_append, List.length_singleton]
    omega

/-- C9: a commit never lets the history exceed `HISTORY_MAX_STEPS`; a
commit made at the tip of a full history silently drops the oldest
snapshot, keeps the length exactly at the cap, and leaves the index at
the newly committed tip. -/
theorem history_bounded (s : AppState) (L : List Layer) (a : String)
    (hlen : s.history.length ≤ HISTORY_MAX_STEPS) :
    (commitToHistory L a s).history.length ≤ HISTORY_MAX_STEPS
    ∧ (s.historyIndex = (s.history.length : ℤ) - 1
        → s.history.length = HISTORY_MAX_STEPS
        → (commitToHistory L a s).history = s.history.tail ++ [⟨L, a⟩]
          ∧ (commitToHistory L a s).history.length = HISTORY_MAX_STEPS
          ∧ (commitToHistory L a s).historyIndex
              = ((commitToHistory L a s).history.length : ℤ) - 1) := by
  have hH : HISTORY_MAX_STEPS = 20 := rfl
  constructor
  · unfold commitToHistory
    simp only []
    have htk : (s.history.take (s.historyIndex + 1).toNat).length
        ≤ s.history.length := by
      rw [List.length_take]
      omega
    split
    · rename_i hgt
      rw [List.length_tail, List.length_append, List.length_singleton]
      rw [List.length_append, List.length_singleton] at hgt
      omega
    · rename_i hle
      rw [List.length_append, List.length_singleton]
      rw [not_lt, List.length_append, List.length_singleton] at hle
      omega
  · intro htip hcap
    obtain ⟨B, hhist, hidx, hbound, -, -, hcase⟩ :=
      commitToHistory_at_tip s L a htip hlen
    rcases hcase with ⟨hlt, -⟩ | ⟨-, rfl⟩
    · omega
    · refine ⟨hhist, ?_, ?_⟩
      · rw [hhist, List.length_append, List.length_tail, List.length_singleton, hcap]
        omega
      · rw [hidx, hhist, List.length_append, List.length_tail,
          List.length_singleton, hcap]
        rw [hH]
        norm_num

/-- Witness for C9 at a full 20-entry history sitting at its tip. -/
theorem history_bounded_witness :
    (List.replicate HISTORY_MAX_STEPS emptyStep).length ≤ HISTORY_MAX_STEPS
    ∧ ((commitToHistory [] "a"
          ⟨[], "", List.replicate HISTORY_MAX_STEPS emptyStep,
            (HISTORY_MAX_STEPS : ℤ) - 1⟩).history.length ≤ HISTORY_MAX_STEPS
      ∧ (((HISTORY_MAX_STEPS : ℤ) - 1
            = ((List.replicate HISTORY_MAX_STEPS emptyStep).length : ℤ) - 1)
          → (List.replicate HISTORY_MAX_STEPS emptyStep).length = HISTORY_MAX_STEPS
          → (commitToHistory [] "a"
              ⟨[], "", List.replicate HISTORY_MAX_STEPS emptyStep,
                (HISTORY_MAX_STEPS : ℤ) - 1⟩).history
              = (List.replicate HISTORY_MAX_STEPS emptyStep).tail ++ [⟨[], "a"⟩]
            ∧ (commitToHistory [] "a"
                ⟨[], "", List.replicate HISTORY_MAX_STEPS emptyStep,
                  (HISTORY_MAX_STEPS : ℤ) - 1⟩).history.length = HISTORY_MAX_STEPS
            ∧ (commitToHistory [] "a"
                ⟨[], "", List.replicate HISTORY_MAX_STEPS emptyStep,
                  (HISTORY_MAX_STEPS : ℤ) - 1⟩).historyIndex
                = ((commitToHistory [] "a"
                    ⟨[], "", List.replicate HISTORY_MAX_STEPS emptyStep,
                      (HISTORY_MAX_STEPS : ℤ) - 1⟩).history.length : ℤ) - 1)) :=
  ⟨by simp, history_bounded
    ⟨[], "", List.replicate HISTORY_MAX_STEPS emptyStep, (HISTORY_MAX_STEPS : ℤ) - 1⟩
    [] "a" (by simp)⟩

/-- C8: from any history state at its tip, `commit(S1); commit(S2);
undo` restores a (deep-)copy of `S1`; a subsequent `redo` restores
`S2`; and a `commit(S3)` performed after the undo truncates the redo
entries, so a further `redo` is a no-op and `S2` can no longer be
reached.  Deep-copying of pixel buffers is `cloneLayers`, which in this
value model is provably the identity. -/
theorem history_round_trip (s : AppState) (S1 S2 S3 : List Layer)
    (a1 a2 a3 : String)
    (htip : s.historyIndex = (s.history.length : ℤ) - 1)
    (hlen : s.history.length ≤ HISTORY_MAX_STEPS) :
    (undoAction (commitToHistory S2 a2 (commitToHistory S1 a1 s))).layers = S1
    ∧ (undoAction (commitToHistory S2 a2 (commitToHistory S1 a1 s))).activeLayerId = a1
    ∧ (redoAction (undoAction (commitToHistory S2 a2
        (commitToHistory S1 a1 s)))).layers = S2
    ∧ (redoAction (undoAction (commitToHistory S2 a2
        (commitToHistory S1 a1 s)))).activeLayerId = a2
    ∧ redoAction (commitToHistory S3 a3 (undoAction (commitToHistory S2 a2
        (commitToHistory S1 a1 s))))
      = commitToHistory S3 a3 (undoAction (commitToHistory S2 a2
        (commitToHistory S1 a1 s))) := by
  obtain ⟨B1, h1hist, h1idx, h1len, h1lay, h1act, h1case⟩ :=
    commitToHistory_at_tip s S1 a1 htip hlen
  have h1tip : (commitToHistory S1 a1 s).historyIndex
      = ((commitToHistory S1 a1 s).history.length : ℤ) - 1 := by
    rw [h1idx, h1hist, List.length_append, List.length_singleton]
    push_cast
    ring
  obtain ⟨B2, h2hist, h2idx, h2len, h2lay, h2act, h2case⟩ :=
    commitToHistory_at_tip (commitToHistory S1 a1 s) S2 a2 h1tip h1len
  obtain ⟨C, hC⟩ : ∃ C : List HistoryStep, B2 = C ++ [⟨S1, a1⟩] := by
    rcases h2case with ⟨-, rfl⟩ | ⟨heq, rfl⟩
    · exact ⟨B1, h1hist⟩
    · cases hB1 : B1 with
      | nil =>
          rw [hB1] at h1hist
          rw [h1hist] at heq
          simp [HISTORY_MAX_STEPS] at heq
      | cons b t =>
          refine ⟨t, ?_⟩
          rw [hB1] at h1hist
          rw [h1hist]
          rfl
  subst hC
  have h2hist' : (commitToHistory S2 a2 (commitToHistory S1 a1 s)).history
      = C ++ [⟨S1, a1⟩, ⟨S2, a2⟩] := by
    rw [h2hist, List.append_assoc]
    rfl
  have h2idx' : (commitToHistory S2 a2 (commitToHistory S1 a1 s)).historyIndex
      = (C.length : ℤ) + 1 := by
    rw [h2idx, List.length_append, List.length_singleton]
    push_cast
    ring
  have h2len' : C.length + 2 ≤ HISTORY_MAX_STEPS := by
    have hl := h2len
    rw [h2hist', List.length_append] at hl
    simpa using hl
  have hguard : 0 < (commitToHistory S2 a2 (commitToHistory S1 a1 s)).historyIndex := by
    rw [h2idx']
    omega
  have hstep1 : (C ++ [(⟨S1, a1⟩ : HistoryStep), ⟨S2, a2⟩]).getD
      (((C.length : ℤ) + 1 - 1).toNat) emptyStep = ⟨S1, a1⟩ := by
    have ht : ((C.length : ℤ) + 1 - 1).toNat = C.length := by omega
    rw [ht, List.getD_eq_getElem?_getD, List.getElem?_append_right (le_refl _)]
    simp
  have hundo : undoAction (commitToHistory S2 a2 (commitToHistory S1 a1 s))
      = ⟨S1, a1, C ++ [⟨S1, a1⟩, ⟨S2, a2⟩], (C.length : ℤ)⟩ := by
    unfold undoAction
    rw [if_pos hguard]
    simp only [h2hist', h2idx', hstep1, cloneLayers_eq_self, AppState.mk.injEq]
    simp
  have hg2 : ((C.length : ℤ))
      < (((C ++ [(⟨S1, a1⟩ : HistoryStep), ⟨S2, a2⟩]).length : ℕ) : ℤ) - 1 := by
    rw [List.length_append]
    simp only [List.length_cons, List.length_singleton]
    push_cast
    omega
  have hstep2 : (C ++ [(⟨S1, a1⟩ : HistoryStep), ⟨S2, a2⟩]).getD
      (((C.length : ℤ) + 1).toNat) emptyStep = ⟨S2, a2⟩ := by
    have ht : ((C.length : ℤ) + 1).toNat = C.length + 1 := by omega
    rw [ht, List.getD_eq_getElem?_getD, List.getElem?_append_right (by omega)]
    have : C.length + 1 - C.length = 1 := by omega
    rw [this]
    simp
  have hredo : redoAction ⟨S1, a1, C ++ [⟨S1, a1⟩, ⟨S2, a2⟩], (C.length : ℤ)⟩
      = ⟨S2, a2, C ++ [⟨S1, a1⟩, ⟨S2, a2⟩], (C.length : ℤ) + 1⟩ := by
    unfold redoAction
    rw [if_pos hg2]
    simp only [hstep2, cloneLayers_eq_self, AppState.mk.injEq]
  have htake2 : (C ++ [(⟨S1, a1⟩ : HistoryStep), ⟨S2, a2⟩]).take (C.length + 1)
      = C ++ [⟨S1, a1⟩] := by
    have hsplit : C ++ [(⟨S1, a1⟩ : HistoryStep), ⟨S2, a2⟩]
        = (C ++ [⟨S1, a1⟩]) ++ [⟨S2, a2⟩] := by
      rw [List.append_assoc]
      rfl
    rw [hsplit, List.take_left']
    rw [List.length_append, List.length_singleton]
  have hc3 : commitToHistory S3 a3 ⟨S1, a1, C ++ [⟨S1, a1⟩, ⟨S2, a2⟩], (C.length : ℤ)⟩
      = ⟨S3, a3, (C ++ [⟨S1, a1⟩]) ++ [⟨S3, a3⟩], (C.length : ℤ) + 1⟩ := by
    unfold commitToHistory
    simp only [cloneLayers_eq_self]
    have htk : (((C.length : ℤ)) + 1).toNat = C.length + 1 := by omega
    rw [htk, htake2]
    have hns : ¬ HISTORY_MAX_STEPS < ((C ++ [(⟨S1, a1⟩ : HistoryStep)])
        ++ [(⟨S3, a3⟩ : HistoryStep)]).length := by
      rw [List.length_append, List.length_append, List.length_singleton,
        List.length_singleton]
      omega
    have hni : ¬ (HISTORY_MAX_STEPS : ℤ) ≤ (C.length : ℤ) + 1 := by omega
    rw [if_neg hns, if_neg hni]
  have hredo4 : redoAction ⟨S3, a3, (C ++ [⟨S1, a1⟩]) ++ [⟨S3, a3⟩], (C.length : ℤ) + 1⟩
      = ⟨S3, a3, (C ++ [⟨S1, a1⟩]) ++ [⟨S3, a3⟩], (C.length : ℤ) + 1⟩ := by
    unfold redoAction
    rw [if_neg]
    rw [List.length_append, List.length_append, List.length_singleton,
      List.length_singleton]
    push_cast
    omega
  rw [hundo, hredo, hc3, hredo4]
  exact ⟨rfl, rfl, rfl, rfl, rfl⟩

/-- Witness for C8 starting from the empty initial history state. -/
theorem history_round_trip_witness :
    ((⟨[], "", [], -1⟩ : AppState).historyIndex
        = (((⟨[], "", [], -1⟩ : AppState).history.length : ℕ) : ℤ) - 1)
    ∧ ((undoAction (commitToHistory [] "b" (commitToHistory [] "a"
          ⟨[], "", [], -1⟩))).layers = []
      ∧ (undoAction (commitToHistory [] "b" (commitToHistory [] "a"
          ⟨[], "", [], -1⟩))).activeLayerId = "a"
      ∧ (redoAction (undoAction (commitToHistory [] "b" (commitToHistory [] "a"
          ⟨[], "", [], -1⟩)))).layers = []
      ∧ (redoAction (undoAction (commitToHistory [] "b" (commitToHistory [] "a"
          ⟨[], "", [], -1⟩)))).activeLayerId = "b"
      ∧ redoAction (commitToHistory [] "c" (undoAction (commitToHistory [] "b"
          (commitToHistory [] "a" ⟨[], "", [], -1⟩))))
        = commitToHistory [] "c" (undoAction (commitToHistory [] "b"
          (commitToHistory [] "a" ⟨[], "", [], -1⟩)))) :=
  ⟨by simp, history_round_trip ⟨[], "", [], -1⟩ [] [] [] "a" "b" "c"
    (by simp) (by simp [HISTORY_MAX_STEPS])⟩

end Liquify
